import Mathlib

/-!
# Verification of the hl-data-collector liquidation pipeline

Shallow embedding of the core of the `hl-data-collector` repository:

* `src/liquidation_aggregator.py` — price bucketing, cluster construction,
  adjacent-small-cluster merging, liquidation-map assembly;
* `src/historical_storage.py` — zlib/base64 snapshot compression helpers;
* `src/position_scanner.py` and `src/hyperliquid_api.py` — wallet scanning,
  position parsing, liquidation-level extraction;
* `scripts/db_maintenance.py` — tiered retention over the snapshots table.

Python floats are idealised as rationals (`ℚ`); Python strings are `List Char`;
machine-level library codecs (json / zlib / base64 / utf-8) are abstract codec
parameters, so theorems about them carry the library round-trip laws as
hypotheses.
-/

namespace HL

/-- Python's `int()` applied to a float/rational: truncation toward zero
(`⌊q⌋` for `q ≥ 0`, `⌈q⌉` for `q < 0`). -/
def pyInt (q : ℚ) : ℤ := if 0 ≤ q then ⌊q⌋ else -⌊-q⌋

/-- `config.PRICE_BUCKET_PERCENT` (src/config.py). -/
def PRICE_BUCKET_PERCENT : ℚ := 1/10

/-- `config.MIN_CLUSTER_SIZE_USD` (src/config.py). -/
def MIN_CLUSTER_SIZE_USD : ℚ := 100000

/-- `config.CLUSTER_MERGE_PERCENT` (src/config.py). -/
def CLUSTER_MERGE_PERCENT : ℚ := 1/2

/-- `config.MIN_POSITION_VALUE_USD` (src/config.py). -/
def MIN_POSITION_VALUE_USD : ℚ := 1000

/-- `LiquidationAggregator._price_to_bucket` (src/liquidation_aggregator.py):
percentage difference from the reference price divided by the bucket width,
then truncated by Python's `int()`.  The source computes the offset in IEEE
doubles; this model idealises it as exact rational arithmetic, so at
representation-boundary inputs (e.g. `p = 99.9`, `ref = 100`, where CPython
computes `-0.9999999999999432` instead of `-1`) the model's bucket can differ
from the program's by one.  Statements about concrete boundary buckets are
therefore not made; the truncation behaviour of `int()` and all structural
properties downstream are representation-independent. -/
def price_to_bucket (bucket_percent : ℚ) (price reference_price : ℚ) : ℤ :=
  if reference_price ≤ 0 then 0
  else pyInt ((((price - reference_price) / reference_price) * 100) / bucket_percent)

/-- `LiquidationAggregator._bucket_to_price_range` (src/liquidation_aggregator.py). -/
def bucket_to_price_range (bucket_percent : ℚ) (bucket : ℤ) (reference_price : ℚ) : ℚ × ℚ :=
  let pct_low : ℚ := bucket * bucket_percent
  let pct_high : ℚ := (bucket + 1) * bucket_percent
  (reference_price * (1 + pct_low / 100), reference_price * (1 + pct_high / 100))

/-- Position side, the value of the Python string field `side`
("long" / "short"); the scanner only ever produces these two values. -/
inductive Side where
  | long
  | short
deriving DecidableEq, Repr

/-- `LiquidationLevel` dataclass (src/position_scanner.py). -/
structure LiquidationLevel where
  price : ℚ
  size_usd : ℚ
  side : Side
  wallet : String
  coin : String
  leverage : ℚ
deriving DecidableEq, Repr

/-- `LiquidationCluster` dataclass (src/liquidation_aggregator.py). -/
structure LiquidationCluster where
  coin : String
  side : Side
  price_low : ℚ
  price_high : ℚ
  price_center : ℚ
  total_size_usd : ℚ
  position_count : ℕ
  avg_leverage : ℚ
deriving DecidableEq, Repr

/-- `LiquidationMap` dataclass (src/liquidation_aggregator.py). -/
structure LiquidationMap where
  coin : String
  current_price : ℚ
  long_liquidations : List LiquidationCluster
  short_liquidations : List LiquidationCluster
  total_long_at_risk_usd : ℚ
  total_short_at_risk_usd : ℚ
  nearest_long_cluster : Option LiquidationCluster
  nearest_short_cluster : Option LiquidationCluster
deriving DecidableEq, Repr

/-! ## Stable sorting

`list.sort(key=...)` in Python is a stable sort by a key.  We embed it as a
stable insertion sort parameterised by a boolean `le` relation: each element is
inserted after every earlier element whose key is `le`-below-or-equal, which is
exactly the order a stable sort produces. -/
/-- Insert `x` into `l` after every element `y` with `le y x`. -/
def insertLe (le : α → α → Bool) (x : α) : List α → List α
  | [] => [x]
  | y :: ys => if le y x then y :: insertLe le x ys else x :: y :: ys

/-- Stable sort by the boolean relation `le` (embeds Python `list.sort(key=...)`). -/
def stableSort (le : α → α → Bool) (l : List α) : List α :=
  l.foldl (fun acc x => insertLe le x acc) []

/-! ## Bucket grouping

`_aggregate_to_clusters` groups levels with `defaultdict(list)`; a Python dict
iterates its keys in first-insertion order, and each bucket's list holds the
levels in arrival order.  `addToGroups`/`groupBuckets` reproduce that. -/
/-- Append `l` to the group keyed `k` of an association list, preserving
first-insertion key order (the behaviour of `defaultdict(list)`). -/
def addToGroups (k : ℤ) (l : LiquidationLevel) :
    List (ℤ × List LiquidationLevel) → List (ℤ × List LiquidationLevel)
  | [] => [(k, [l])]
  | (k', g) :: rest =>
    if k' = k then (k', g ++ [l]) :: rest else (k', g) :: addToGroups k l rest

/-- The `buckets` dictionary of `_aggregate_to_clusters`: levels grouped by
their price bucket, keys in first-insertion order. -/
def groupBuckets (bucket_percent reference_price : ℚ) (levels : List LiquidationLevel) :
    List (ℤ × List LiquidationLevel) :=
  levels.foldl
    (fun acc l => addToGroups (price_to_bucket bucket_percent l.price reference_price) l acc) []

/-- Sum of `size_usd` over a list of levels. -/
def totalSize (levels : List LiquidationLevel) : ℚ := (levels.map (·.size_usd)).sum

/-- One entry of the bucket-to-cluster loop of `_aggregate_to_clusters`:
buckets whose total size is under the $10k dust floor yield no cluster. -/
def bucketToCluster (bucket_percent reference_price : ℚ) (side : Side)
    (kg : ℤ × List LiquidationLevel) : Option LiquidationCluster :=
  match kg with
  | (_, []) => none
  | (bucket, l0 :: rest) =>
    let bucket_levels := l0 :: rest
    let total_size := totalSize bucket_levels
    if total_size < 10000 then none
    else
      let pr := bucket_to_price_range bucket_percent bucket reference_price
      some {
        coin := l0.coin
        side := side
        price_low := pr.1
        price_high := pr.2
        price_center := (pr.1 + pr.2) / 2
        total_size_usd := total_size
        position_count := bucket_levels.length
        avg_leverage := (bucket_levels.map (fun l => l.leverage * l.size_usd)).sum / total_size
      }

/-- The merged-cluster constructor inside `_merge_adjacent_clusters`. -/
def mergeClusters (current next_cluster : LiquidationCluster) : LiquidationCluster :=
  let total_size := current.total_size_usd + next_cluster.total_size_usd
  { coin := current.coin
    side := current.side
    price_low := current.price_low
    price_high := next_cluster.price_high
    price_center := (current.price_low + next_cluster.price_high) / 2
    total_size_usd := total_size
    position_count := current.position_count + next_cluster.position_count
    avg_leverage :=
      (current.avg_leverage * current.total_size_usd +
        next_cluster.avg_leverage * next_cluster.total_size_usd) / total_size }

/-- The gap (in percent of the current cluster's center) between two adjacent
clusters, as computed by `_merge_adjacent_clusters`. -/
def gapPercent (current next_cluster : LiquidationCluster) : ℚ :=
  ((next_cluster.price_low - current.price_high) / current.price_center) * 100

/-- The merge condition of `_merge_adjacent_clusters`. -/
def shouldMerge (merge_percent min_cluster_size : ℚ)
    (current next_cluster : LiquidationCluster) : Prop :=
  gapPercent current next_cluster < merge_percent ∧
    current.total_size_usd < min_cluster_size ∧
    next_cluster.total_size_usd < min_cluster_size

instance (mp mcs : ℚ) (c n : LiquidationCluster) : Decidable (shouldMerge mp mcs c n) := by
  unfold shouldMerge; infer_instance

/-- The accumulation loop of `_merge_adjacent_clusters` over the sorted
cluster list (`current` is the cluster being grown). -/
def mergeLoop (merge_percent min_cluster_size : ℚ) (current : LiquidationCluster) :
    List LiquidationCluster → List LiquidationCluster
  | [] => [current]
  | next_cluster :: rest =>
    if shouldMerge merge_percent min_cluster_size current next_cluster then
      mergeLoop merge_percent min_cluster_size (mergeClusters current next_cluster) rest
    else
      current :: mergeLoop merge_percent min_cluster_size next_cluster rest

/-- `LiquidationAggregator._merge_adjacent_clusters`: sort by `price_center`
and merge adjacent pairs of small clusters. -/
def merge_adjacent_clusters (merge_percent min_cluster_size : ℚ)
    (clusters : List LiquidationCluster) : List LiquidationCluster :=
  if clusters.length < 2 then clusters
  else
    match stableSort (fun a b => a.price_center ≤ b.price_center) clusters with
    | [] => []
    | c :: rest => mergeLoop merge_percent min_cluster_size c rest

/-- `LiquidationAggregator._aggregate_to_clusters`. -/
def aggregate_to_clusters (bucket_percent merge_percent min_cluster_size : ℚ)
    (levels : List LiquidationLevel) (reference_price : ℚ) (side : Side) :
    List LiquidationCluster :=
  if levels.isEmpty then []
  else
    merge_adjacent_clusters merge_percent min_cluster_size
      ((groupBuckets bucket_percent reference_price levels).filterMap
        (bucketToCluster bucket_percent reference_price side))

/-- Sum of `total_size_usd` over a list of clusters. -/
def totalClusterSize (clusters : List LiquidationCluster) : ℚ :=
  (clusters.map (·.total_size_usd)).sum

/-- `LiquidationAggregator.aggregate_levels`. -/
def aggregate_levels (bucket_percent merge_percent min_cluster_size : ℚ)
    (levels : List LiquidationLevel) (current_price : ℚ) (coin : String) :
    LiquidationMap :=
  if levels.isEmpty ∨ current_price ≤ 0 then
    { coin := coin
      current_price := current_price
      long_liquidations := []
      short_liquidations := []
      total_long_at_risk_usd := 0
      total_short_at_risk_usd := 0
      nearest_long_cluster := none
      nearest_short_cluster := none }
  else
    let long_levels := levels.filter (fun l => l.side = Side.long)
    let short_levels := levels.filter (fun l => l.side = Side.short)
    let long_clusters₀ :=
      aggregate_to_clusters bucket_percent merge_percent min_cluster_size
        long_levels current_price Side.long
    let short_clusters₀ :=
      aggregate_to_clusters bucket_percent merge_percent min_cluster_size
        short_levels current_price Side.short
    let long_clusters :=
      stableSort (fun a b => current_price - a.price_center ≤ current_price - b.price_center)
        long_clusters₀
    let short_clusters :=
      stableSort (fun a b => a.price_center - current_price ≤ b.price_center - current_price)
        short_clusters₀
    { coin := coin
      current_price := current_price
      long_liquidations := long_clusters
      short_liquidations := short_clusters
      total_long_at_risk_usd := totalClusterSize long_clusters
      total_short_at_risk_usd := totalClusterSize short_clusters
      nearest_long_cluster := long_clusters.find? (fun c => min_cluster_size ≤ c.total_size_usd)
      nearest_short_cluster := short_clusters.find? (fun c => min_cluster_size ≤ c.total_size_usd) }

/-! ## Lemmas about the merge loop -/
/-- Count of positions over a list of clusters. -/
def totalClusterCount (clusters : List LiquidationCluster) : ℕ :=
  (clusters.map (·.position_count)).sum

/-! ## Lemmas about bucket grouping -/
/-- The bucket key assigned to a level by `_aggregate_to_clusters`. -/
def levelKey (bucket_percent reference_price : ℚ) (l : LiquidationLevel) : ℤ :=
  price_to_bucket bucket_percent l.price reference_price

/-! ## Totals: the cluster lists account exactly for the levels that pass
the dust floor -/
/-- Specification-side quantity: the summed notional of the levels whose
bucket survives the $10k dust floor (a level survives iff the combined
`size_usd` of all levels sharing its price bucket reaches $10,000). -/
def survivingSize (bp ref : ℚ) (levels : List LiquidationLevel) : ℚ :=
  (levels.map (fun l =>
    if 10000 ≤ totalSize (levels.filter (fun l' => levelKey bp ref l' = levelKey bp ref l))
    then l.size_usd else 0)).sum

/-! ## Snapshot compression (src/historical_storage.py)

`compress_json` / `decompress_json` compose the standard-library codecs
`json.dumps` / `str.encode('utf-8')` / `zlib.compress(level=6)` /
`base64.b64encode` and their inverses.  The embedding keeps this composition
structure and treats the library codecs as abstract parameters (a `Codecs`
record); the round-trip laws of the CPython libraries become hypotheses. -/
/-- A Python `str` as a character sequence. -/
abbrev PyStr := List Char

/-- The library codecs used by `compress_json` / `decompress_json`:
`α` is the type of JSON documents (Python dicts), `β` the type of byte
strings.  Fallible decoders return `none` where CPython raises. -/
structure Codecs (α β : Type) where
  jsonDumps : α → PyStr
  jsonLoads : PyStr → Option α
  encodeUtf8 : PyStr → β
  decodeUtf8 : β → Option PyStr
  zlibCompress : β → β
  zlibDecompress : β → Option β
  b64encode : β → PyStr
  b64decode : PyStr → Option β
  emptyDict : α

/-- `COMPRESSION_MARKER = "ZLIB:"` (src/historical_storage.py). -/
def COMPRESSION_MARKER : PyStr := ['Z', 'L', 'I', 'B', ':']

/-- `compress_json` (src/historical_storage.py). -/
def compress_json {α β : Type} (c : Codecs α β) (data : α) : PyStr :=
  COMPRESSION_MARKER ++ c.b64encode (c.zlibCompress (c.encodeUtf8 (c.jsonDumps data)))

/-- `decompress_json` (src/historical_storage.py): `none` input models Python
`None`; every failing decode stage is caught and yields the empty dict. -/
def decompress_json {α β : Type} (c : Codecs α β) : Option PyStr → α
  | none => c.emptyDict
  | some s =>
    if COMPRESSION_MARKER.isPrefixOf s then
      match c.b64decode (s.drop COMPRESSION_MARKER.length) with
      | none => c.emptyDict
      | some compressed =>
        match c.zlibDecompress compressed with
        | none => c.emptyDict
        | some json_bytes =>
          match c.decodeUtf8 json_bytes with
          | none => c.emptyDict
          | some js =>
            match c.jsonLoads js with
            | none => c.emptyDict
            | some v => v
    else
      match c.jsonLoads s with
      | none => c.emptyDict
      | some v => v

/-- Trivial instantiation of the codec record (documents are naturals encoded
in unary; every stage is the identity), used to witness the round-trip laws. -/
def unaryCodecs : Codecs ℕ PyStr where
  jsonDumps n := List.replicate n 'a'
  jsonLoads s := some s.length
  encodeUtf8 s := s
  decodeUtf8 s := some s
  zlibCompress b := b
  zlibDecompress b := some b
  b64encode b := b
  b64decode s := some s
  emptyDict := 0

/-- A codec whose every decoder fails, used to witness the failure cases. -/
def failingCodecs : Codecs ℕ PyStr where
  jsonDumps n := List.replicate n 'a'
  jsonLoads _ := none
  encodeUtf8 s := s
  decodeUtf8 _ := none
  zlibCompress b := b
  zlibDecompress _ := none
  b64encode b := b
  b64decode _ := none
  emptyDict := 0

/-! ## Wallet scanning (src/hyperliquid_api.py, src/position_scanner.py)

Numeric wire fields other than `liquidationPx` are modelled already parsed
(the claims do not touch their parsing); `liquidationPx` keeps its wire
encoding, which the venue sends as a string, the literal string `"null"`,
JSON `null`, or omits entirely.  Network / parse failures are `Except`
errors; `try/except` blocks catch them. -/
/-- The wire encoding of the `liquidationPx` field. -/
inductive LiqPxField where
  | absent
  | null
  | str (s : PyStr)
  | num (q : ℚ)
deriving DecidableEq, Repr

/-- The Python string `"null"`. -/
def nullStr : PyStr := ['n', 'u', 'l', 'l']

/-- Python truthiness of the value read for `liquidationPx` (`if liq_px`):
missing key and `None` are falsy, a string is truthy iff nonempty, a number
iff nonzero. -/
def liqPxTruthy : LiqPxField → Bool
  | .absent => false
  | .null => false
  | .str s => !s.isEmpty
  | .num q => q ≠ 0

/-- The comparison `liq_px != "null"` (only a string can equal `"null"`). -/
def liqPxIsNullString : LiqPxField → Bool
  | .str s => s = nullStr
  | _ => false

/-- Digit value of a character, `none` for non-digits. -/
def digitVal (c : Char) : Option ℕ :=
  if '0' ≤ c ∧ c ≤ '9' then some (c.toNat - '0'.toNat) else none

/-- Parse a nonempty all-digit string as a natural number. -/
def parseNatDigits (cs : PyStr) : Option ℕ :=
  if cs.isEmpty then none
  else cs.foldl (fun acc c =>
    match acc, digitVal c with
    | some a, some d => some (a * 10 + d)
    | _, _ => none) (some 0)

/-- The character-level part of decimal-literal parsing: optional sign,
decimal digits with an optional single fractional point (`"1"`, `"1.5"`,
`".5"`, `"1."`); yields (negative?, integer digits, fraction digits,
fraction length), `none` on anything else. -/
def pyFloatParts (s : PyStr) : Option (Bool × ℕ × ℕ × ℕ) :=
  let sr : Bool × PyStr :=
    match s with
    | '-' :: r => (true, r)
    | '+' :: r => (false, r)
    | r => (false, r)
  let intPart := sr.2.takeWhile (· ≠ '.')
  match sr.2.dropWhile (· ≠ '.') with
  | [] => (parseNatDigits intPart).map (fun n => (sr.1, n, 0, 0))
  | _ :: frac =>
    if intPart.isEmpty ∧ frac.isEmpty then none
    else
      let ip := if intPart.isEmpty then some 0 else parseNatDigits intPart
      let fp := if frac.isEmpty then some 0 else parseNatDigits frac
      match ip, fp with
      | some i, some f => some (sr.1, i, f, frac.length)
      | _, _ => none

/-- Modelled from the spec: Python's `float()` on the venue's decimal price
strings (exponents, `inf`/`nan` and surrounding whitespace do not occur in
the venue's price encoding); fails (raises `ValueError`) on non-numeric
strings. -/
def pyFloat (s : PyStr) : Option ℚ :=
  (pyFloatParts s).map (fun p =>
    (if p.1 then (-1 : ℚ) else 1) * ((p.2.1 : ℚ) + (p.2.2.1 : ℚ) / (10 ^ p.2.2.2)))

/-- `Position` dataclass (src/hyperliquid_api.py). -/
structure Position where
  wallet : String
  coin : String
  size : ℚ
  entry_price : ℚ
  liquidation_price : Option ℚ
  leverage : ℚ
  notional_value : ℚ
  unrealized_pnl : ℚ
  margin_used : ℚ
deriving DecidableEq, Repr

/-- `Position.side` (src/hyperliquid_api.py): `"long"` iff `size > 0`. -/
def Position.side (p : Position) : Side :=
  if 0 < p.size then Side.long else Side.short

/-- The `position` dict of one `assetPositions` entry, wire-level. -/
structure RawPosition where
  szi : ℚ
  coin : String
  entryPx : ℚ
  positionValue : ℚ
  unrealizedPnl : ℚ
  marginUsed : ℚ
  leverageValue : ℚ
  liquidationPx : LiqPxField
deriving DecidableEq, Repr

/-- The `liquidationPx` handling of `get_user_positions`:
`if liq_px and liq_px != "null": liq_px = float(liq_px) else: liq_px = None`.
A `float()` failure raises (`Except.error`). -/
def parseLiqPx (f : LiqPxField) : Except Unit (Option ℚ) :=
  if liqPxTruthy f ∧ ¬ liqPxIsNullString f then
    match f with
    | .str s =>
      match pyFloat s with
      | some q => .ok (some q)
      | none => .error ()
    | .num q => .ok (some q)
    | .absent => .ok none
    | .null => .ok none
  else .ok none

/-- Parse one `assetPositions` entry of `get_user_positions`:
an empty/missing `position` dict is skipped, dust sizes
(`abs(size) < 0.0001`) are skipped, otherwise a `Position` is built. -/
def parseAssetPosition (wallet : String) (ap : Option RawPosition) :
    Except Unit (Option Position) :=
  match ap with
  | none => .ok none
  | some pos =>
    if |pos.szi| < 1/10000 then .ok none
    else
      match parseLiqPx pos.liquidationPx with
      | .error e => .error e
      | .ok liq => .ok (some {
          wallet := wallet
          coin := pos.coin
          size := pos.szi
          entry_price := pos.entryPx
          liquidation_price := liq
          leverage := pos.leverageValue
          notional_value := |pos.positionValue|
          unrealized_pnl := pos.unrealizedPnl
          margin_used := pos.marginUsed })

/-- The position loop of `get_user_positions`; a raised parse error aborts
the whole loop (the caught exception discards positions already built). -/
def parsePositions (wallet : String) :
    List (Option RawPosition) → Except Unit (List Position)
  | [] => .ok []
  | ap :: rest =>
    match parseAssetPosition wallet ap with
    | .error e => .error e
    | .ok none => parsePositions wallet rest
    | .ok (some p) =>
      match parsePositions wallet rest with
      | .error e => .error e
      | .ok ps => .ok (p :: ps)

/-- `HyperliquidAPI.get_user_positions`: fetches the clearinghouse state
(`fetch`, which may fail) and parses it; the surrounding `try/except`
turns any failure into `[]`. -/
def get_user_positions (fetch : String → Except Unit (List (Option RawPosition)))
    (wallet : String) : List Position :=
  match fetch wallet with
  | .error _ => []
  | .ok aps =>
    match parsePositions wallet aps with
    | .error _ => []
    | .ok ps => ps

/-- `PositionScanner.scan_wallet`: `try: return get_user_positions(w)
except: return []`.  Its body is total (every failure is already caught
inside `get_user_positions`), so the task value handed to `asyncio.gather`
is always a list, never an exception (`Sum.inl` is dead). -/
def scan_wallet (fetch : String → Except Unit (List (Option RawPosition)))
    (wallet : String) : Sum Unit (List Position) :=
  Sum.inr (get_user_positions fetch wallet)

/-- `ScanResult` dataclass (src/position_scanner.py); `positions` is the flat
`all_positions` list from which `positions_by_coin` is grouped. -/
structure ScanResult where
  total_wallets_scanned : ℕ
  total_positions_found : ℕ
  total_long_exposure_usd : ℚ
  total_short_exposure_usd : ℚ
  positions : List Position
  liquidation_levels : List LiquidationLevel
  errors : ℕ
deriving Repr

/-- The level emitted for a kept position when its liquidation price is
known (`if position.liquidation_price is not None`). -/
def levelOfPosition (p : Position) : Option LiquidationLevel :=
  match p.liquidation_price with
  | none => none
  | some lp => some {
      price := lp
      size_usd := p.notional_value
      side := p.side
      wallet := p.wallet
      coin := p.coin
      leverage := p.leverage }

/-- One step of the result loop of `scan_wallets`: an `Exception` result
increments `errors`; a position list is filtered by the
`MIN_POSITION_VALUE_USD` floor, appended to `all_positions`, and its levels
extracted. -/
def scanAccum (acc : List Position × List LiquidationLevel × ℕ)
    (r : Sum Unit (List Position)) : List Position × List LiquidationLevel × ℕ :=
  match r with
  | Sum.inl _ => (acc.1, acc.2.1, acc.2.2 + 1)
  | Sum.inr result =>
    let kept := result.filter (fun p => ¬ p.notional_value < MIN_POSITION_VALUE_USD)
    (acc.1 ++ kept, acc.2.1 ++ kept.filterMap levelOfPosition, acc.2.2)

/-- `PositionScanner.scan_wallets` over an already-capped wallet list
(batches concatenate in order, so the batched fan-out is the flat fold). -/
def scan_wallets (fetch : String → Except Unit (List (Option RawPosition)))
    (wallets : List String) : ScanResult :=
  let acc := (wallets.map (scan_wallet fetch)).foldl scanAccum ([], [], 0)
  { total_wallets_scanned := wallets.length
    total_positions_found := acc.1.length
    total_long_exposure_usd := ((acc.1.filter (fun p => 0 < p.size)).map (·.notional_value)).sum
    total_short_exposure_usd :=
      ((acc.1.filter (fun p => ¬ 0 < p.size)).map (·.notional_value)).sum
    positions := acc.1
    liquidation_levels := acc.2.1
    errors := acc.2.2 }

/-- A venue fetch that always raises (network failure for every wallet). -/
def failFetch : String → Except Unit (List (Option RawPosition)) := fun _ => .error ()

/-- A raw position whose venue-reported `liquidationPx` is the string `"0"`
(truthy, not `"null"`, parses to `0`). -/
def zeroLiqRaw : RawPosition :=
  { szi := 1, coin := "BTC", entryPx := 100, positionValue := 2000,
    unrealizedPnl := 0, marginUsed := 0, leverageValue := 5,
    liquidationPx := .str ['0'] }

/-- A venue returning `zeroLiqRaw` for every wallet. -/
def zeroLiqFetch : String → Except Unit (List (Option RawPosition)) :=
  fun _ => .ok [some zeroLiqRaw]

/-- A well-formed raw position: non-dust, $3,000 notional, `liquidationPx`
the string `"25"`. -/
def goodRaw : RawPosition :=
  { szi := 2, coin := "ETH", entryPx := 1000, positionValue := 3000,
    unrealizedPnl := 0, marginUsed := 0, leverageValue := 4,
    liquidationPx := .str ['2', '5'] }

/-! ## Tiered retention (scripts/db_maintenance.py)

The `snapshots.timestamp` column is TEXT.  The collector writes
`datetime.isoformat()` values `YYYY-MM-DDTHH:MM:SS[.ffffff][+00:00]` (a `T`
separator), while `datetime('now', '-N days')` renders
`YYYY-MM-DD HH:MM:SS` (a space).  The `WHERE timestamp < datetime(...)`
clauses therefore compare those strings lexicographically:

* the zero-padded 10-character dates compare first, chronologically
  (4-digit years assumed);
* on equal dates, position 10 compares the separator: `'T' (0x54) > ' '
  (0x20)`, so a `T`-row is never below a same-day cutoff;
* on equal dates and a space separator, the zero-padded `HH:MM:SS` parts
  compare chronologically; a row bearing only an extra fraction/timezone
  suffix is the longer string, hence not below.

`tsLt` encodes exactly this.  `strftime('%H'/'%M', ...)` parses either
separator and yields the UTC hour/minute.  The three DELETE statements are
modelled at one instant `now` (the code re-evaluates `datetime('now')` per
statement; sub-second drift between statements is outside the model). -/
/-- A row of the `snapshots` table, reduced to its timestamp text:
`secs` is the encoded UTC time in seconds, `sepT` whether the date/time
separator is `'T'`, `hasSuffix` whether a fraction/timezone suffix follows
the seconds. -/
structure SnapshotRow where
  secs : ℕ
  sepT : Bool
  hasSuffix : Bool
deriving DecidableEq, Repr

/-- Day index of an encoded timestamp. -/
def dateOf (s : ℕ) : ℕ := s / 86400

/-- Seconds past midnight of an encoded timestamp. -/
def todOf (s : ℕ) : ℕ := s % 86400

/-- `strftime('%H', timestamp)` as a number. -/
def hourOf (s : ℕ) : ℕ := todOf s / 3600

/-- `strftime('%M', timestamp)` as a number. -/
def minuteOf (s : ℕ) : ℕ := todOf s % 3600 / 60

/-- The SQL predicate `timestamp < datetime('now', '-N days')` — a
lexicographic TEXT comparison of the row's rendered timestamp against the
space-separated, suffix-free cutoff string (see the section comment). -/
def tsLt (r : SnapshotRow) (cut : ℕ) : Bool :=
  if dateOf r.secs ≠ dateOf cut then dateOf r.secs < dateOf cut
  else if r.sepT then false
  else if todOf r.secs ≠ todOf cut then todOf r.secs < todOf cut
  else false

/-- `run_maintenance` (scripts/db_maintenance.py) on the `snapshots` table
with `dry_run = False`: the three tiered DELETEs in source order. -/
def run_maintenance_snapshots (now : ℕ) (rows : List SnapshotRow) : List SnapshotRow :=
  let cut30 := now - 30 * 86400
  let cut7 := now - 7 * 86400
  let cut1 := now - 1 * 86400
  let rows1 := rows.filter (fun r => ¬ tsLt r cut30)
  let rows2 := rows1.filter (fun r =>
    ¬ (tsLt r cut7 ∧ ¬ tsLt r cut30 ∧ hourOf r.secs ≠ 12))
  let rows3 := rows2.filter (fun r =>
    ¬ (tsLt r cut1 ∧ ¬ tsLt r cut7 ∧ minuteOf r.secs ≠ 0))
  rows3

/-! ## Lemmas about the stable sort -/
theorem insertLe_perm {α : Type*} (le : α → α → Bool) (x : α) :
    ∀ l : List α, List.Perm (insertLe le x l) (x :: l)
  | [] => List.Perm.refl _
  | y :: ys => by
    simp only [insertLe]
    by_cases h : le y x
    · rw [if_pos h]
      exact ((insertLe_perm le x ys).cons y).trans (List.Perm.swap x y ys)
    · rw [if_neg h]

theorem foldl_insertLe_perm {α : Type*} (le : α → α → Bool) :
    ∀ (l acc : List α),
      List.Perm (l.foldl (fun acc x => insertLe le x acc) acc) (acc ++ l)
  | [], acc => by simp
  | x :: xs, acc => by
    refine (foldl_insertLe_perm le xs (insertLe le x acc)).trans ?_
    exact ((insertLe_perm le x acc).append_right xs).trans List.perm_middle.symm

theorem stableSort_perm {α : Type*} (le : α → α → Bool) (l : List α) :
    List.Perm (stableSort le l) l := by
  simpa using foldl_insertLe_perm le l []

theorem mem_stableSort {α : Type*} (le : α → α → Bool) (l : List α) (a : α) :
    a ∈ stableSort le l ↔ a ∈ l :=
  (stableSort_perm le l).mem_iff

theorem pairwise_insertLe {α : Type*} (le : α → α → Bool)
    (htot : ∀ a b, le a b = true ∨ le b a = true)
    (htrans : ∀ a b c, le a b = true → le b c = true → le a c = true) (x : α) :
    ∀ l : List α, l.Pairwise (fun a b => le a b = true) →
      (insertLe le x l).Pairwise (fun a b => le a b = true)
  | [], _ => by simp [insertLe]
  | y :: ys, h => by
    rw [List.pairwise_cons] at h
    obtain ⟨hy, hys⟩ := h
    simp only [insertLe]
    by_cases hle : le y x
    · rw [if_pos hle]
      rw [List.pairwise_cons]
      refine ⟨fun z hz => ?_, pairwise_insertLe le htot htrans x ys hys⟩
      rcases List.mem_cons.mp ((insertLe_perm le x ys).mem_iff.mp hz) with hzx | hzys
      · exact hzx ▸ hle
      · exact hy z hzys
    · rw [if_neg hle]
      have hxy : le x y = true := (htot x y).resolve_right (fun h => hle h)
      rw [List.pairwise_cons]
      refine ⟨fun z hz => ?_, List.pairwise_cons.mpr ⟨hy, hys⟩⟩
      rcases List.mem_cons.mp hz with hzy | hzys
      · exact hzy ▸ hxy
      · exact htrans x y z hxy (hy z hzys)

theorem stableSort_pairwise {α : Type*} (le : α → α → Bool)
    (htot : ∀ a b, le a b = true ∨ le b a = true)
    (htrans : ∀ a b c, le a b = true → le b c = true → le a c = true) (l : List α) :
    (stableSort le l).Pairwise (fun a b => le a b = true) := by
  suffices h : ∀ (l acc : List α), acc.Pairwise (fun a b => le a b = true) →
      (l.foldl (fun acc x => insertLe le x acc) acc).Pairwise (fun a b => le a b = true) by
    exact h l [] List.Pairwise.nil
  intro l
  induction l with
  | nil => intro acc h; simpa using h
  | cons x xs ih =>
    intro acc h
    exact ih _ (pairwise_insertLe le htot htrans x acc h)

theorem mergeLoop_total_size (mp mcs : ℚ) :
    ∀ (rest : List LiquidationCluster) (cur : LiquidationCluster),
      totalClusterSize (mergeLoop mp mcs cur rest) =
        cur.total_size_usd + totalClusterSize rest
  | [], cur => by simp [mergeLoop, totalClusterSize]
  | next :: rest, cur => by
    simp only [mergeLoop]
    by_cases h : shouldMerge mp mcs cur next
    · rw [if_pos h, mergeLoop_total_size mp mcs rest]
      simp [mergeClusters, totalClusterSize]
      ring
    · rw [if_neg h]
      simp only [totalClusterSize, List.map_cons, List.sum_cons]
      rw [show ((mergeLoop mp mcs next rest).map (·.total_size_usd)).sum =
        totalClusterSize (mergeLoop mp mcs next rest) from rfl,
        mergeLoop_total_size mp mcs rest]
      simp [totalClusterSize]

theorem mergeLoop_total_count (mp mcs : ℚ) :
    ∀ (rest : List LiquidationCluster) (cur : LiquidationCluster),
      totalClusterCount (mergeLoop mp mcs cur rest) =
        cur.position_count + totalClusterCount rest
  | [], cur => by simp [mergeLoop, totalClusterCount]
  | next :: rest, cur => by
    simp only [mergeLoop]
    by_cases h : shouldMerge mp mcs cur next
    · rw [if_pos h, mergeLoop_total_count mp mcs rest]
      simp [mergeClusters, totalClusterCount]
      omega
    · rw [if_neg h]
      simp only [totalClusterCount, List.map_cons, List.sum_cons]
      rw [show ((mergeLoop mp mcs next rest).map (·.position_count)).sum =
        totalClusterCount (mergeLoop mp mcs next rest) from rfl,
        mergeLoop_total_count mp mcs rest]
      simp [totalClusterCount]

theorem totalClusterSize_perm {l₁ l₂ : List LiquidationCluster} (h : List.Perm l₁ l₂) :
    totalClusterSize l₁ = totalClusterSize l₂ := by
  simpa [totalClusterSize] using (h.map (·.total_size_usd)).sum_eq

theorem totalClusterCount_perm {l₁ l₂ : List LiquidationCluster} (h : List.Perm l₁ l₂) :
    totalClusterCount l₁ = totalClusterCount l₂ := by
  simpa [totalClusterCount] using (h.map (·.position_count)).sum_eq

/-- Mass conservation of `_merge_adjacent_clusters`: notional and position
counts are preserved. -/
theorem merge_adjacent_clusters_conserves (mp mcs : ℚ) (clusters : List LiquidationCluster) :
    totalClusterSize (merge_adjacent_clusters mp mcs clusters) = totalClusterSize clusters ∧
      totalClusterCount (merge_adjacent_clusters mp mcs clusters) = totalClusterCount clusters := by
  unfold merge_adjacent_clusters
  by_cases hlen : clusters.length < 2
  · rw [if_pos hlen]; exact ⟨rfl, rfl⟩
  · rw [if_neg hlen]
    have hperm := stableSort_perm (fun a b => a.price_center ≤ b.price_center) clusters
    cases hsort : stableSort (fun a b => a.price_center ≤ b.price_center) clusters with
    | nil =>
      rw [hsort] at hperm
      have : clusters = [] := hperm.symm.eq_nil
      simp [this, totalClusterSize, totalClusterCount]
    | cons c rest =>
      rw [hsort] at hperm
      constructor
      · rw [mergeLoop_total_size, ← totalClusterSize_perm hperm]
        simp [totalClusterSize]
      · rw [mergeLoop_total_count, ← totalClusterCount_perm hperm]
        simp [totalClusterCount]

/-- Structure of `mergeLoop` output: it is nonempty, its head inherits
`price_low` from (and accumulates at least the notional of) the cluster being
grown, and no adjacent output pair still satisfies the merge condition. -/
theorem mergeLoop_spec (mp mcs : ℚ) :
    ∀ (rest : List LiquidationCluster) (cur : LiquidationCluster),
      (∀ c ∈ rest, 0 ≤ c.total_size_usd) →
      ∃ h t, mergeLoop mp mcs cur rest = h :: t ∧
        h.price_low = cur.price_low ∧
        cur.total_size_usd ≤ h.total_size_usd ∧
        List.Chain' (fun c c' => ¬ shouldMerge mp mcs c c') (h :: t)
  | [], cur => fun _ =>
    ⟨cur, [], rfl, rfl, le_refl _, List.chain'_singleton cur⟩
  | next :: rest, cur => fun hpos => by
    simp only [mergeLoop]
    by_cases hm : shouldMerge mp mcs cur next
    · rw [if_pos hm]
      obtain ⟨h, t, heq, hlow, htot, hchain⟩ :=
        mergeLoop_spec mp mcs rest (mergeClusters cur next)
          (fun c hc => hpos c (List.mem_cons_of_mem _ hc))
      refine ⟨h, t, heq, ?_, ?_, hchain⟩
      · simpa [mergeClusters] using hlow
      · refine le_trans ?_ htot
        have hnext : 0 ≤ next.total_size_usd := hpos next (List.mem_cons_self _ _)
        simp [mergeClusters]
        linarith
    · rw [if_neg hm]
      obtain ⟨h, t, heq, hlow, htot, hchain⟩ :=
        mergeLoop_spec mp mcs rest next (fun c hc => hpos c (List.mem_cons_of_mem _ hc))
      refine ⟨cur, mergeLoop mp mcs next rest, rfl, rfl, le_refl _, ?_⟩
      rw [heq]
      rw [List.chain'_cons]
      refine ⟨?_, hchain⟩
      intro hcontra
      apply hm
      obtain ⟨hgap, hcur, hh⟩ := hcontra
      refine ⟨?_, hcur, ?_⟩
      · simpa [gapPercent, hlow] using hgap
      · exact lt_of_le_of_lt htot hh

/-- The adjacent-pair invariant for `_merge_adjacent_clusters`: provided all
input totals are nonnegative, no two adjacent output clusters both remain
below the significance threshold while their gap is below the merge
threshold. -/
theorem merge_adjacent_clusters_chain (mp mcs : ℚ) (clusters : List LiquidationCluster)
    (hpos : ∀ c ∈ clusters, 0 ≤ c.total_size_usd) :
    List.Chain' (fun c c' => ¬ shouldMerge mp mcs c c')
      (merge_adjacent_clusters mp mcs clusters) := by
  unfold merge_adjacent_clusters
  by_cases hlen : clusters.length < 2
  · rw [if_pos hlen]
    match clusters, hlen with
    | [], _ => exact List.chain'_nil
    | [c], _ => exact List.chain'_singleton c
  · rw [if_neg hlen]
    have hperm := stableSort_perm (fun a b => a.price_center ≤ b.price_center) clusters
    cases hsort : stableSort (fun a b => a.price_center ≤ b.price_center) clusters with
    | nil => exact List.chain'_nil
    | cons c rest =>
      rw [hsort] at hperm
      obtain ⟨h, t, heq, _, _, hchain⟩ :=
        mergeLoop_spec mp mcs rest c
          (fun x hx => hpos x (hperm.mem_iff.mp (List.mem_cons_of_mem _ hx)))
      show List.Chain' (fun c c' => ¬ shouldMerge mp mcs c c') (mergeLoop mp mcs c rest)
      rw [heq]
      exact hchain

theorem addToGroups_fst (k : ℤ) (x : LiquidationLevel) :
    ∀ acc : List (ℤ × List LiquidationLevel),
      (addToGroups k x acc).map Prod.fst =
        if k ∈ acc.map Prod.fst then acc.map Prod.fst else acc.map Prod.fst ++ [k]
  | [] => by simp [addToGroups]
  | (k', g) :: rest => by
    simp only [addToGroups]
    by_cases h : k' = k
    · subst h
      simp
    · rw [if_neg h]
      simp only [List.map_cons, addToGroups_fst k x rest]
      by_cases hk : k ∈ rest.map Prod.fst
      · rw [if_pos hk, if_pos (by simp [hk])]
      · rw [if_neg hk, if_neg (by simp [hk, Ne.symm h])]
        simp

theorem addToGroups_mem (k : ℤ) (x : LiquidationLevel) :
    ∀ acc : List (ℤ × List LiquidationLevel), (acc.map Prod.fst).Nodup →
      ∀ kg ∈ addToGroups k x acc,
        (kg ∈ acc ∧ kg.1 ≠ k) ∨
        (∃ g, (k, g) ∈ acc ∧ kg = (k, g ++ [x])) ∨
        (k ∉ acc.map Prod.fst ∧ kg = (k, [x]))
  | [], _ => by
    intro kg hkg
    simp only [addToGroups, List.mem_singleton] at hkg
    exact Or.inr (Or.inr ⟨by simp, hkg⟩)
  | (k', g) :: rest, hnd => by
    intro kg hkg
    simp only [List.map_cons, List.nodup_cons] at hnd
    obtain ⟨hk'rest, hndrest⟩ := hnd
    simp only [addToGroups] at hkg
    by_cases h : k' = k
    · subst h
      rw [if_pos rfl] at hkg
      rcases List.mem_cons.mp hkg with heq | hrest
      · exact Or.inr (Or.inl ⟨g, List.mem_cons_self _ _, heq⟩)
      · left
        refine ⟨List.mem_cons_of_mem _ hrest, ?_⟩
        intro hfst
        exact hk'rest (hfst ▸ List.mem_map_of_mem Prod.fst hrest)
    · rw [if_neg h] at hkg
      rcases List.mem_cons.mp hkg with heq | hrest
      · exact Or.inl ⟨heq ▸ List.mem_cons_self _ _, by simp [heq, h]⟩
      · rcases addToGroups_mem k x rest hndrest kg hrest with ⟨hmem, hne⟩ | ⟨g', hg', heq⟩ | ⟨hnotin, heq⟩
        · exact Or.inl ⟨List.mem_cons_of_mem _ hmem, hne⟩
        · exact Or.inr (Or.inl ⟨g', List.mem_cons_of_mem _ hg', heq⟩)
        · refine Or.inr (Or.inr ⟨?_, heq⟩)
          simp only [List.map_cons, List.mem_cons]
          rintro (hkk' | hkrest)
          · exact h hkk'.symm
          · exact hnotin hkrest

theorem addToGroups_join (k : ℤ) (x : LiquidationLevel) :
    ∀ acc : List (ℤ × List LiquidationLevel),
      List.Perm ((addToGroups k x acc).map Prod.snd).flatten ((acc.map Prod.snd).flatten ++ [x])
  | [] => by simp [addToGroups]
  | (k', g) :: rest => by
    simp only [addToGroups]
    by_cases h : k' = k
    · rw [if_pos h]
      simp only [List.map_cons, List.flatten_cons, List.append_assoc]
      exact List.Perm.append_left g (List.perm_append_comm)
    · rw [if_neg h]
      simp only [List.map_cons, List.flatten_cons, List.append_assoc]
      exact List.Perm.append_left g (addToGroups_join k x rest)

/-- Correctness of the `defaultdict` grouping in `_aggregate_to_clusters`:
each group is exactly the sub-list of levels with that bucket key, keys are
distinct and cover all levels, and the groups jointly permute the input. -/
theorem groupBuckets_spec (bp ref : ℚ) (levels : List LiquidationLevel) :
    (∀ kg ∈ groupBuckets bp ref levels,
        kg.2 = levels.filter (fun l => levelKey bp ref l = kg.1)) ∧
    ((groupBuckets bp ref levels).map Prod.fst).Nodup ∧
    (∀ l ∈ levels, levelKey bp ref l ∈ (groupBuckets bp ref levels).map Prod.fst) ∧
    List.Perm ((groupBuckets bp ref levels).map Prod.snd).flatten levels := by
  induction levels using List.reverseRecOn with
  | nil => exact ⟨by simp [groupBuckets], by simp [groupBuckets], by simp, by simp [groupBuckets]⟩
  | append_singleton p x ih =>
    obtain ⟨h1, h2, h3, h4⟩ := ih
    have hstep : groupBuckets bp ref (p ++ [x]) =
        addToGroups (levelKey bp ref x) x (groupBuckets bp ref p) := by
      simp [groupBuckets, List.foldl_append, levelKey]
    set k := levelKey bp ref x with hk
    set G := groupBuckets bp ref p with hG
    refine ⟨?_, ?_, ?_, ?_⟩
    · intro kg hkg
      rw [hstep] at hkg
      rcases addToGroups_mem k x G h2 kg hkg with ⟨hmem, hne⟩ | ⟨g, hgmem, heq⟩ | ⟨hnotin, heq⟩
      · rw [List.filter_append, h1 kg hmem]
        simp [hne.symm, Ne.symm hne]
      · have := h1 (k, g) hgmem
        simp only at this
        rw [heq, List.filter_append]
        simp [← this, hk]
      · have hfil : p.filter (fun l => levelKey bp ref l = k) = [] := by
          rw [List.filter_eq_nil_iff]
          intro l hl hkey
          simp only [decide_eq_true_eq] at hkey
          exact hnotin (hkey ▸ h3 l hl)
        rw [heq, List.filter_append]
        simp [hfil, hk]
    · rw [hstep, addToGroups_fst]
      by_cases hkin : k ∈ G.map Prod.fst
      · rwa [if_pos hkin]
      · rw [if_neg hkin]
        simp [List.nodup_append, h2, hkin]
    · intro l hl
      have hsup : ∀ k', k' ∈ G.map Prod.fst →
          k' ∈ (addToGroups k x G).map Prod.fst := by
        intro k' hk'
        rw [addToGroups_fst]
        by_cases hkin : k ∈ G.map Prod.fst
        · rwa [if_pos hkin]
        · rw [if_neg hkin]; exact List.mem_append_left _ hk'
      rcases List.mem_append.mp hl with hp | hx
      · rw [hstep]; exact hsup _ (h3 l hp)
      · have : l = x := by simpa using hx
        subst this
        rw [hstep, addToGroups_fst]
        by_cases hkin : k ∈ G.map Prod.fst
        · rwa [if_pos hkin]
        · rw [if_neg hkin]; simp [hk]
    · rw [hstep]
      exact (addToGroups_join k x G).trans (h4.append_right [x])

theorem filterMap_bucketToCluster_total (bp ref : ℚ) (side : Side) :
    ∀ groups : List (ℤ × List LiquidationLevel),
      totalClusterSize (groups.filterMap (bucketToCluster bp ref side)) =
        (groups.map (fun kg => if 10000 ≤ totalSize kg.2 then totalSize kg.2 else 0)).sum
  | [] => by simp [totalClusterSize]
  | (k, g) :: rest => by
    have ih := filterMap_bucketToCluster_total bp ref side rest
    cases g with
    | nil =>
      simp only [List.filterMap_cons, bucketToCluster, List.map_cons, List.sum_cons]
      rw [ih]
      norm_num [totalSize]
    | cons l0 ls =>
      simp only [List.filterMap_cons, bucketToCluster, List.map_cons, List.sum_cons]
      by_cases h : totalSize (l0 :: ls) < 10000
      · rw [if_pos h, if_neg (by linarith), ih]
        ring
      · rw [if_neg h, if_pos (by linarith)]
        simp only [totalClusterSize, List.map_cons, List.sum_cons]
        rw [show ((rest.filterMap (bucketToCluster bp ref side)).map (·.total_size_usd)).sum =
          totalClusterSize (rest.filterMap (bucketToCluster bp ref side)) from rfl, ih]

theorem groupBuckets_total (bp ref : ℚ) (levels : List LiquidationLevel) :
    ((groupBuckets bp ref levels).map
        (fun kg => if 10000 ≤ totalSize kg.2 then totalSize kg.2 else 0)).sum =
      survivingSize bp ref levels := by
  obtain ⟨h1, _, _, h4⟩ := groupBuckets_spec bp ref levels
  set w : LiquidationLevel → ℚ := fun l =>
    if 10000 ≤ totalSize (levels.filter (fun l' => levelKey bp ref l' = levelKey bp ref l))
    then l.size_usd else 0 with hw
  have hstep1 : ∀ kg ∈ groupBuckets bp ref levels,
      (if 10000 ≤ totalSize kg.2 then totalSize kg.2 else 0) = (kg.2.map w).sum := by
    intro kg hkg
    have hg := h1 kg hkg
    have hkey : ∀ l ∈ kg.2, levelKey bp ref l = kg.1 := by
      intro l hl
      rw [hg] at hl
      simpa using (List.mem_filter.mp hl).2
    have hfil : ∀ l ∈ kg.2,
        levels.filter (fun l' => levelKey bp ref l' = levelKey bp ref l) = kg.2 := by
      intro l hl
      rw [hkey l hl, hg]
    by_cases hc : 10000 ≤ totalSize kg.2
    · rw [if_pos hc]
      have : ∀ l ∈ kg.2, w l = l.size_usd := by
        intro l hl
        rw [hw]
        simp only
        rw [hfil l hl, if_pos hc]
      rw [List.map_congr_left this]
      rfl
    · rw [if_neg hc]
      have : ∀ l ∈ kg.2, w l = 0 := by
        intro l hl
        rw [hw]
        simp only
        rw [hfil l hl, if_neg hc]
      rw [List.map_congr_left this]
      simp
  rw [List.map_congr_left hstep1]
  have hstep2 :
      ((groupBuckets bp ref levels).map (fun kg => (kg.2.map w).sum)).sum =
        ((((groupBuckets bp ref levels).map Prod.snd).flatten).map w).sum := by
    rw [List.map_flatten, List.sum_flatten, List.map_map, List.map_map]
    rfl
  rw [hstep2, (h4.map w).sum_eq]
  rfl

/-- The total cluster notional produced by `_aggregate_to_clusters` equals the
summed notional of the input levels that pass the dust floor. -/
theorem aggregate_to_clusters_total (bp mp mcs ref : ℚ) (side : Side)
    (levels : List LiquidationLevel) :
    totalClusterSize (aggregate_to_clusters bp mp mcs levels ref side) =
      survivingSize bp ref levels := by
  unfold aggregate_to_clusters
  by_cases he : levels.isEmpty
  · rw [if_pos he]
    have : levels = [] := List.isEmpty_iff.mp he
    simp [this, survivingSize, totalClusterSize]
  · rw [if_neg he]
    rw [(merge_adjacent_clusters_conserves mp mcs _).1]
    rw [filterMap_bucketToCluster_total, groupBuckets_total]

/-! ## Side purity -/
theorem bucketToCluster_side (bp ref : ℚ) (side : Side) (kg : ℤ × List LiquidationLevel)
    (c : LiquidationCluster) (h : bucketToCluster bp ref side kg = some c) :
    c.side = side := by
  obtain ⟨k, g⟩ := kg
  cases g with
  | nil => simp [bucketToCluster] at h
  | cons l0 ls =>
    simp only [bucketToCluster] at h
    by_cases hlt : totalSize (l0 :: ls) < 10000
    · rw [if_pos hlt] at h; exact absurd h (by simp)
    · rw [if_neg hlt] at h
      obtain rfl := Option.some_injective _ h
      rfl

theorem mergeLoop_side (mp mcs : ℚ) (s : Side) :
    ∀ (rest : List LiquidationCluster) (cur : LiquidationCluster),
      cur.side = s → (∀ c ∈ rest, c.side = s) →
      ∀ c ∈ mergeLoop mp mcs cur rest, c.side = s
  | [], cur => by
    intro hcur _ c hc
    simp only [mergeLoop, List.mem_singleton] at hc
    exact hc ▸ hcur
  | next :: rest, cur => by
    intro hcur hrest c hc
    simp only [mergeLoop] at hc
    by_cases hm : shouldMerge mp mcs cur next
    · rw [if_pos hm] at hc
      exact mergeLoop_side mp mcs s rest (mergeClusters cur next)
        (by simp [mergeClusters, hcur]) (fun c hc => hrest c (List.mem_cons_of_mem _ hc)) c hc
    · rw [if_neg hm] at hc
      rcases List.mem_cons.mp hc with rfl | hc'
      · exact hcur
      · exact mergeLoop_side mp mcs s rest next
          (hrest next (List.mem_cons_self _ _))
          (fun c hc => hrest c (List.mem_cons_of_mem _ hc)) c hc'

theorem merge_adjacent_clusters_side (mp mcs : ℚ) (s : Side)
    (clusters : List LiquidationCluster) (hall : ∀ c ∈ clusters, c.side = s) :
    ∀ c ∈ merge_adjacent_clusters mp mcs clusters, c.side = s := by
  unfold merge_adjacent_clusters
  by_cases hlen : clusters.length < 2
  · rw [if_pos hlen]; exact hall
  · rw [if_neg hlen]
    have hperm := stableSort_perm (fun a b => a.price_center ≤ b.price_center) clusters
    cases hsort : stableSort (fun a b => a.price_center ≤ b.price_center) clusters with
    | nil => simp
    | cons c rest =>
      rw [hsort] at hperm
      intro c' hc'
      refine mergeLoop_side mp mcs s rest c ?_ ?_ c' hc'
      · exact hall c (hperm.mem_iff.mp (List.mem_cons_self _ _))
      · exact fun x hx => hall x (hperm.mem_iff.mp (List.mem_cons_of_mem _ hx))

theorem aggregate_to_clusters_side (bp mp mcs ref : ℚ) (side : Side)
    (levels : List LiquidationLevel) :
    ∀ c ∈ aggregate_to_clusters bp mp mcs levels ref side, c.side = side := by
  unfold aggregate_to_clusters
  by_cases he : levels.isEmpty
  · rw [if_pos he]; simp
  · rw [if_neg he]
    refine merge_adjacent_clusters_side mp mcs side _ ?_
    intro c hc
    obtain ⟨kg, _, hkg⟩ := List.mem_filterMap.mp hc
    exact bucketToCluster_side bp ref side kg c hkg

/-! ## Finding the nearest significant cluster -/
theorem find?_pairwise {α : Type*} (R : α → α → Prop) (hrefl : ∀ a, R a a) (p : α → Bool) :
    ∀ l : List α, l.Pairwise R →
      ∀ c, l.find? p = some c → ∀ c' ∈ l, p c' = true → R c c'
  | [], _, c, hc => by simp at hc
  | x :: xs, hp, c, hc => by
    rw [List.pairwise_cons] at hp
    obtain ⟨hx, hxs⟩ := hp
    by_cases hpx : p x = true
    · rw [List.find?_cons_of_pos _ hpx] at hc
      obtain rfl := Option.some_injective _ hc
      intro c' hc' _
      rcases List.mem_cons.mp hc' with rfl | hmem
      · exact hrefl _
      · exact hx c' hmem
    · rw [List.find?_cons_of_neg _ (by simpa using hpx)] at hc
      intro c' hc' hpc'
      rcases List.mem_cons.mp hc' with rfl | hmem
      · exact absurd hpc' hpx
      · exact find?_pairwise R hrefl p xs hxs c hc c' hmem hpc'

/-- The long-side sort of `aggregate_levels` (key `current_price − center`,
ascending) orders clusters by decreasing `price_center`. -/
theorem stableSort_center_desc (cp : ℚ) (L : List LiquidationCluster) :
    List.Pairwise (fun a b => b.price_center ≤ a.price_center)
      (stableSort (fun a b => cp - a.price_center ≤ cp - b.price_center) L) := by
  have h := stableSort_pairwise
    (fun a b : LiquidationCluster => cp - a.price_center ≤ cp - b.price_center)
    (fun a b => by
      rcases le_total (cp - a.price_center) (cp - b.price_center) with h | h
      · exact Or.inl (decide_eq_true h)
      · exact Or.inr (decide_eq_true h))
    (fun a b c hab hbc =>
      decide_eq_true (le_trans (of_decide_eq_true hab) (of_decide_eq_true hbc))) L
  refine h.imp ?_
  intro a b hab
  have := of_decide_eq_true hab
  linarith

/-- The short-side sort of `aggregate_levels` (key `center − current_price`,
ascending) orders clusters by increasing `price_center`. -/
theorem stableSort_center_asc (cp : ℚ) (L : List LiquidationCluster) :
    List.Pairwise (fun a b => a.price_center ≤ b.price_center)
      (stableSort (fun a b => a.price_center - cp ≤ b.price_center - cp) L) := by
  have h := stableSort_pairwise
    (fun a b : LiquidationCluster => a.price_center - cp ≤ b.price_center - cp)
    (fun a b => by
      rcases le_total (a.price_center - cp) (b.price_center - cp) with h | h
      · exact Or.inl (decide_eq_true h)
      · exact Or.inr (decide_eq_true h))
    (fun a b c hab hbc =>
      decide_eq_true (le_trans (of_decide_eq_true hab) (of_decide_eq_true hbc))) L
  refine h.imp ?_
  intro a b hab
  have := of_decide_eq_true hab
  linarith

/-! ## Claim theorems -/
/-- C1, counterexample: the claim "the bucket is `floor(((p - current_price) /
current_price) * 100 / B)`" fails at `p = 99.85`, `current_price = 100`,
`B = 0.1`: the relative offset is `-1.5` bucket widths, whose floor is `-2`,
but `_price_to_bucket` (Python `int()`, truncation toward zero) returns `-1`. -/
theorem c1_bucket_floor_counterexample :
    price_to_bucket PRICE_BUCKET_PERCENT (1997/20) 100 ≠
      ⌊((((1997/20 : ℚ) - 100) / 100) * 100) / PRICE_BUCKET_PERCENT⌋ ∧
    price_to_bucket PRICE_BUCKET_PERCENT (1997/20) 100 = -1 ∧
    ⌊((((1997/20 : ℚ) - 100) / 100) * 100) / PRICE_BUCKET_PERCENT⌋ = -2 := by
  refine ⟨?_, ?_, ?_⟩ <;> norm_num [price_to_bucket, pyInt, PRICE_BUCKET_PERCENT]

/-- C1 (amended): for `current_price > 0` the bucket is the computed relative
offset `r = ((p - current_price)/current_price)·100/B` truncated toward zero
by Python's `int()` — equal to `⌊r⌋` when `r ≥ 0` and to `-⌊-r⌋` (the
ceiling) when `r < 0`.  No concrete bucket is asserted for boundary inputs
such as `p = 99.9`, `current_price = 100`: there CPython's double arithmetic
computes `r = -0.9999999999999432` rather than the exact `-1`, so the program
returns bucket `0` (center 100.05), not `-1` (center 99.95) — the spec's
boundary example is dropped from the claim. -/
theorem c1_bucket_truncation :
    (∀ bp p ref : ℚ, 0 < ref → 0 ≤ (((p - ref) / ref) * 100) / bp →
      price_to_bucket bp p ref = ⌊(((p - ref) / ref) * 100) / bp⌋) ∧
    (∀ bp p ref : ℚ, 0 < ref → (((p - ref) / ref) * 100) / bp < 0 →
      price_to_bucket bp p ref = -⌊-((((p - ref) / ref) * 100) / bp)⌋) := by
  constructor
  · intro bp p ref href hr
    rw [price_to_bucket, if_neg (not_le.mpr href), pyInt, if_pos hr]
  · intro bp p ref href hr
    rw [price_to_bucket, if_neg (not_le.mpr href), pyInt, if_neg (not_le.mpr hr)]

/-- Witness for `c1_bucket_truncation`: both truncation identities applied at
concrete inputs (`p = 100.25` above, `p = 99.85` below the reference). -/
theorem c1_bucket_truncation_witness :
    price_to_bucket (1/10) (401/4) 100 = ⌊((((401/4 : ℚ) - 100) / 100) * 100) / (1/10)⌋ ∧
    price_to_bucket (1/10) (1997/20) 100 =
      -⌊-(((((1997/20 : ℚ)) - 100) / 100) * 100) / (1/10)⌋ := by
  constructor
  · exact c1_bucket_truncation.1 (1/10) (401/4) 100 (by norm_num) (by norm_num)
  · have h := c1_bucket_truncation.2 (1/10) (1997/20) 100 (by norm_num) (by norm_num)
    rw [h]
    norm_num

/-- C9: `_merge_adjacent_clusters` conserves mass — the summed
`total_size_usd` and summed `position_count` of the output equal those of the
input, for every input cluster list. -/
theorem c9_merge_conserves_mass (clusters : List LiquidationCluster) :
    totalClusterSize
        (merge_adjacent_clusters CLUSTER_MERGE_PERCENT MIN_CLUSTER_SIZE_USD clusters) =
      totalClusterSize clusters ∧
    totalClusterCount
        (merge_adjacent_clusters CLUSTER_MERGE_PERCENT MIN_CLUSTER_SIZE_USD clusters) =
      totalClusterCount clusters :=
  merge_adjacent_clusters_conserves CLUSTER_MERGE_PERCENT MIN_CLUSTER_SIZE_USD clusters

/-- C3: for candidate-cluster inputs (every total at least the $10k dust
floor), the merged output has no adjacent pair that is still mergeable — both
below `MIN_CLUSTER_SIZE_USD` with gap% below `CLUSTER_MERGE_PERCENT` — and a
merge combines exactly as specified: `low = cur.low`, `high = next.high`,
`center = (cur.low + next.high)/2`, summed total and count, notional-weighted
leverage. -/
theorem c3_merge_invariant (clusters : List LiquidationCluster)
    (h : ∀ c ∈ clusters, 10000 ≤ c.total_size_usd) :
    List.Chain' (fun c c' =>
        ¬(((c'.price_low - c.price_high) / c.price_center) * 100 < CLUSTER_MERGE_PERCENT ∧
          c.total_size_usd < MIN_CLUSTER_SIZE_USD ∧
          c'.total_size_usd < MIN_CLUSTER_SIZE_USD))
      (merge_adjacent_clusters CLUSTER_MERGE_PERCENT MIN_CLUSTER_SIZE_USD clusters) ∧
    (∀ cur next : LiquidationCluster, mergeClusters cur next =
      { coin := cur.coin
        side := cur.side
        price_low := cur.price_low
        price_high := next.price_high
        price_center := (cur.price_low + next.price_high) / 2
        total_size_usd := cur.total_size_usd + next.total_size_usd
        position_count := cur.position_count + next.position_count
        avg_leverage :=
          (cur.avg_leverage * cur.total_size_usd + next.avg_leverage * next.total_size_usd) /
            (cur.total_size_usd + next.total_size_usd) }) := by
  constructor
  · exact merge_adjacent_clusters_chain CLUSTER_MERGE_PERCENT MIN_CLUSTER_SIZE_USD clusters
      (fun c hc => le_trans (by norm_num) (h c hc))
  · intro cur next
    rfl

/-- Witness for `c3_merge_invariant` at a concrete two-cluster input. -/
theorem c3_merge_invariant_witness :
    (∀ c ∈ ([{ coin := "BTC", side := Side.long, price_low := 99, price_high := 100,
               price_center := 199/2, total_size_usd := 20000, position_count := 2,
               avg_leverage := 10 }] : List LiquidationCluster),
        10000 ≤ c.total_size_usd) ∧
    (List.Chain' (fun c c' =>
        ¬(((c'.price_low - c.price_high) / c.price_center) * 100 < CLUSTER_MERGE_PERCENT ∧
          c.total_size_usd < MIN_CLUSTER_SIZE_USD ∧
          c'.total_size_usd < MIN_CLUSTER_SIZE_USD))
      (merge_adjacent_clusters CLUSTER_MERGE_PERCENT MIN_CLUSTER_SIZE_USD
        [{ coin := "BTC", side := Side.long, price_low := 99, price_high := 100,
           price_center := 199/2, total_size_usd := 20000, position_count := 2,
           avg_leverage := 10 }]) ∧
      (∀ cur next : LiquidationCluster, mergeClusters cur next =
        { coin := cur.coin
          side := cur.side
          price_low := cur.price_low
          price_high := next.price_high
          price_center := (cur.price_low + next.price_high) / 2
          total_size_usd := cur.total_size_usd + next.total_size_usd
          position_count := cur.position_count + next.position_count
          avg_leverage :=
            (cur.avg_leverage * cur.total_size_usd + next.avg_leverage * next.total_size_usd) /
              (cur.total_size_usd + next.total_size_usd) })) :=
  ⟨by intro c hc; simp only [List.mem_singleton] at hc; subst hc; norm_num,
   c3_merge_invariant _ (by intro c hc; simp only [List.mem_singleton] at hc; subst hc; norm_num)⟩

/-- C4, counterexample: a single long level of $5,000 (below the $10k bucket
dust floor) is dropped entirely, so `total_long_at_risk_usd = 0` differs from
the $5,000 sum over the input long levels — the claimed exhaustive partition
and total equality fail. -/
theorem c4_partition_counterexample :
    (aggregate_levels PRICE_BUCKET_PERCENT CLUSTER_MERGE_PERCENT MIN_CLUSTER_SIZE_USD
        [⟨999/10, 5000, Side.long, "w", "BTC", 10⟩] 100 "BTC").total_long_at_risk_usd = 0 ∧
    totalSize [⟨999/10, 5000, Side.long, "w", "BTC", 10⟩] = 5000 ∧
    (0 : ℚ) ≠ 5000 := by
  refine ⟨?_, by norm_num [totalSize], by norm_num⟩
  norm_num [aggregate_levels, aggregate_to_clusters, groupBuckets, addToGroups,
    price_to_bucket, pyInt, bucketToCluster, bucket_to_price_range, totalSize,
    merge_adjacent_clusters, stableSort, insertLe, mergeLoop, totalClusterSize,
    PRICE_BUCKET_PERCENT, CLUSTER_MERGE_PERCENT, MIN_CLUSTER_SIZE_USD,
    List.foldl, List.filter, List.filterMap]

/-- C4 (amended): for `current_price > 0`, long clusters carry only
`side = long` levels and short clusters only `side = short`; and each side's
total equals the summed notional of that side's input levels *that pass the
$10k bucket dust floor* (levels in dust buckets are dropped). -/
theorem c4_partition_by_side (levels : List LiquidationLevel) (cp : ℚ) (coin : String)
    (hcp : 0 < cp) :
    (∀ c ∈ (aggregate_levels PRICE_BUCKET_PERCENT CLUSTER_MERGE_PERCENT MIN_CLUSTER_SIZE_USD
        levels cp coin).long_liquidations, c.side = Side.long) ∧
    (∀ c ∈ (aggregate_levels PRICE_BUCKET_PERCENT CLUSTER_MERGE_PERCENT MIN_CLUSTER_SIZE_USD
        levels cp coin).short_liquidations, c.side = Side.short) ∧
    (aggregate_levels PRICE_BUCKET_PERCENT CLUSTER_MERGE_PERCENT MIN_CLUSTER_SIZE_USD
        levels cp coin).total_long_at_risk_usd =
      survivingSize PRICE_BUCKET_PERCENT cp (levels.filter (fun l => l.side = Side.long)) ∧
    (aggregate_levels PRICE_BUCKET_PERCENT CLUSTER_MERGE_PERCENT MIN_CLUSTER_SIZE_USD
        levels cp coin).total_short_at_risk_usd =
      survivingSize PRICE_BUCKET_PERCENT cp (levels.filter (fun l => l.side = Side.short)) := by
  by_cases he : levels.isEmpty ∨ cp ≤ 0
  · have hnil : levels = [] := by
      rcases he with he | he
      · exact List.isEmpty_iff.mp he
      · exact absurd he (not_le.mpr hcp)
    subst hnil
    simp [aggregate_levels, survivingSize]
  · unfold aggregate_levels
    rw [if_neg he]
    simp only
    refine ⟨?_, ?_, ?_, ?_⟩
    · intro c hc
      exact aggregate_to_clusters_side _ _ _ _ _ _ c ((mem_stableSort _ _ c).mp hc)
    · intro c hc
      exact aggregate_to_clusters_side _ _ _ _ _ _ c ((mem_stableSort _ _ c).mp hc)
    · rw [totalClusterSize_perm (stableSort_perm _ _)]
      exact aggregate_to_clusters_total _ _ _ _ _ _
    · rw [totalClusterSize_perm (stableSort_perm _ _)]
      exact aggregate_to_clusters_total _ _ _ _ _ _

/-- Witness for `c4_partition_by_side` at a concrete input. -/
theorem c4_partition_by_side_witness :
    (0 : ℚ) < 100 ∧
    ((∀ c ∈ (aggregate_levels PRICE_BUCKET_PERCENT CLUSTER_MERGE_PERCENT MIN_CLUSTER_SIZE_USD
        [⟨999/10, 20000, Side.long, "w", "BTC", 10⟩] 100 "BTC").long_liquidations,
        c.side = Side.long) ∧
     (∀ c ∈ (aggregate_levels PRICE_BUCKET_PERCENT CLUSTER_MERGE_PERCENT MIN_CLUSTER_SIZE_USD
        [⟨999/10, 20000, Side.long, "w", "BTC", 10⟩] 100 "BTC").short_liquidations,
        c.side = Side.short) ∧
     (aggregate_levels PRICE_BUCKET_PERCENT CLUSTER_MERGE_PERCENT MIN_CLUSTER_SIZE_USD
        [⟨999/10, 20000, Side.long, "w", "BTC", 10⟩] 100 "BTC").total_long_at_risk_usd =
       survivingSize PRICE_BUCKET_PERCENT 100
         (([⟨999/10, 20000, Side.long, "w", "BTC", 10⟩] :
            List LiquidationLevel).filter (fun l => l.side = Side.long)) ∧
     (aggregate_levels PRICE_BUCKET_PERCENT CLUSTER_MERGE_PERCENT MIN_CLUSTER_SIZE_USD
        [⟨999/10, 20000, Side.long, "w", "BTC", 10⟩] 100 "BTC").total_short_at_risk_usd =
       survivingSize PRICE_BUCKET_PERCENT 100
         (([⟨999/10, 20000, Side.long, "w", "BTC", 10⟩] :
            List LiquidationLevel).filter (fun l => l.side = Side.short))) :=
  ⟨by norm_num,
   c4_partition_by_side [⟨999/10, 20000, Side.long, "w", "BTC", 10⟩] 100 "BTC" (by norm_num)⟩

/-- The value of `aggregate_levels` when `levels` is nonempty and
`current_price > 0` (the non-degenerate branch, with its `let`s expanded). -/
theorem aggregate_levels_of_pos (bp mp mcs : ℚ) (levels : List LiquidationLevel)
    (cp : ℚ) (coin : String) (h : ¬(levels.isEmpty = true ∨ cp ≤ 0)) :
    aggregate_levels bp mp mcs levels cp coin =
      { coin := coin
        current_price := cp
        long_liquidations :=
          stableSort (fun a b => cp - a.price_center ≤ cp - b.price_center)
            (aggregate_to_clusters bp mp mcs
              (levels.filter (fun l => l.side = Side.long)) cp Side.long)
        short_liquidations :=
          stableSort (fun a b => a.price_center - cp ≤ b.price_center - cp)
            (aggregate_to_clusters bp mp mcs
              (levels.filter (fun l => l.side = Side.short)) cp Side.short)
        total_long_at_risk_usd := totalClusterSize
          (stableSort (fun a b => cp - a.price_center ≤ cp - b.price_center)
            (aggregate_to_clusters bp mp mcs
              (levels.filter (fun l => l.side = Side.long)) cp Side.long))
        total_short_at_risk_usd := totalClusterSize
          (stableSort (fun a b => a.price_center - cp ≤ b.price_center - cp)
            (aggregate_to_clusters bp mp mcs
              (levels.filter (fun l => l.side = Side.short)) cp Side.short))
        nearest_long_cluster :=
          (stableSort (fun a b => cp - a.price_center ≤ cp - b.price_center)
            (aggregate_to_clusters bp mp mcs
              (levels.filter (fun l => l.side = Side.long)) cp Side.long)).find?
            (fun c => mcs ≤ c.total_size_usd)
        nearest_short_cluster :=
          (stableSort (fun a b => a.price_center - cp ≤ b.price_center - cp)
            (aggregate_to_clusters bp mp mcs
              (levels.filter (fun l => l.side = Side.short)) cp Side.short)).find?
            (fun c => mcs ≤ c.total_size_usd) } := by
  unfold aggregate_levels
  rw [if_neg h]

theorem find?_big_eq_none_iff (mcs : ℚ) (L : List LiquidationCluster) :
    L.find? (fun c => mcs ≤ c.total_size_usd) = none ↔
      ∀ c ∈ L, c.total_size_usd < mcs := by
  rw [List.find?_eq_none]
  constructor
  · intro h c hc
    exact not_le.mp (by simpa using h c hc)
  · intro h c hc
    simpa using not_le.mpr (h c hc)

/-- C5: in every map built by `aggregate_levels`, long clusters are ordered by
decreasing `price_center` and short clusters by increasing `price_center`;
`nearest_long_cluster` (resp. `nearest_short_cluster`) is absent exactly when
no cluster of that side reaches `MIN_CLUSTER_SIZE_USD`, and when present it is
a significant cluster of its list with the largest (resp. smallest)
`price_center` among the significant ones. -/
theorem c5_nearest_clusters (levels : List LiquidationLevel) (cp : ℚ) (coin : String)
    (m : LiquidationMap)
    (hm : m = aggregate_levels PRICE_BUCKET_PERCENT CLUSTER_MERGE_PERCENT MIN_CLUSTER_SIZE_USD
      levels cp coin) :
    List.Pairwise (fun a b => b.price_center ≤ a.price_center) m.long_liquidations ∧
    List.Pairwise (fun a b => a.price_center ≤ b.price_center) m.short_liquidations ∧
    (m.nearest_long_cluster = none ↔
      ∀ c ∈ m.long_liquidations, c.total_size_usd < MIN_CLUSTER_SIZE_USD) ∧
    (m.nearest_short_cluster = none ↔
      ∀ c ∈ m.short_liquidations, c.total_size_usd < MIN_CLUSTER_SIZE_USD) ∧
    (∀ c, m.nearest_long_cluster = some c →
      c ∈ m.long_liquidations ∧ MIN_CLUSTER_SIZE_USD ≤ c.total_size_usd ∧
        ∀ c' ∈ m.long_liquidations, MIN_CLUSTER_SIZE_USD ≤ c'.total_size_usd →
          c'.price_center ≤ c.price_center) ∧
    (∀ c, m.nearest_short_cluster = some c →
      c ∈ m.short_liquidations ∧ MIN_CLUSTER_SIZE_USD ≤ c.total_size_usd ∧
        ∀ c' ∈ m.short_liquidations, MIN_CLUSTER_SIZE_USD ≤ c'.total_size_usd →
          c.price_center ≤ c'.price_center) := by
  by_cases he : levels.isEmpty = true ∨ cp ≤ 0
  · rw [show aggregate_levels PRICE_BUCKET_PERCENT CLUSTER_MERGE_PERCENT MIN_CLUSTER_SIZE_USD
        levels cp coin =
      { coin := coin, current_price := cp, long_liquidations := [],
        short_liquidations := [], total_long_at_risk_usd := 0,
        total_short_at_risk_usd := 0, nearest_long_cluster := none,
        nearest_short_cluster := none } from by unfold aggregate_levels; rw [if_pos he]] at hm
    subst hm
    simp
  · rw [aggregate_levels_of_pos _ _ _ _ _ _ he] at hm
    subst hm
    simp only
    generalize hA : aggregate_to_clusters PRICE_BUCKET_PERCENT CLUSTER_MERGE_PERCENT
      MIN_CLUSTER_SIZE_USD (levels.filter (fun l => l.side = Side.long)) cp Side.long = A
    generalize hB : aggregate_to_clusters PRICE_BUCKET_PERCENT CLUSTER_MERGE_PERCENT
      MIN_CLUSTER_SIZE_USD (levels.filter (fun l => l.side = Side.short)) cp Side.short = B
    refine ⟨stableSort_center_desc cp A, stableSort_center_asc cp B,
      find?_big_eq_none_iff _ _, find?_big_eq_none_iff _ _, ?_, ?_⟩
    · intro c hc
      refine ⟨List.mem_of_find?_eq_some hc, by simpa using List.find?_some hc, ?_⟩
      intro c' hc' hc'big
      exact find?_pairwise
        (fun a b : LiquidationCluster => b.price_center ≤ a.price_center)
        (fun a => le_refl _) _ _ (stableSort_center_desc cp A)
        c hc c' hc' (by simpa using hc'big)
    · intro c hc
      refine ⟨List.mem_of_find?_eq_some hc, by simpa using List.find?_some hc, ?_⟩
      intro c' hc' hc'big
      exact find?_pairwise
        (fun a b : LiquidationCluster => a.price_center ≤ b.price_center)
        (fun a => le_refl _) _ _ (stableSort_center_asc cp B)
        c hc c' hc' (by simpa using hc'big)

/-- Witness for `c5_nearest_clusters`: on a single $200k long level at 99.9
with current price 100, the nearest long cluster is the (unique) significant
cluster. -/
theorem c5_nearest_clusters_witness :
    ({ coin := "BTC", side := Side.long, price_low := 999/10, price_high := 100,
       price_center := 1999/20, total_size_usd := 200000, position_count := 1,
       avg_leverage := 10 } : LiquidationCluster) ∈
      (aggregate_levels PRICE_BUCKET_PERCENT CLUSTER_MERGE_PERCENT MIN_CLUSTER_SIZE_USD
        [⟨999/10, 200000, Side.long, "w", "BTC", 10⟩] 100 "BTC").long_liquidations ∧
    MIN_CLUSTER_SIZE_USD ≤
      ({ coin := "BTC", side := Side.long, price_low := 999/10, price_high := 100,
         price_center := 1999/20, total_size_usd := 200000, position_count := 1,
         avg_leverage := 10 } : LiquidationCluster).total_size_usd := by
  have hfind : (aggregate_levels PRICE_BUCKET_PERCENT CLUSTER_MERGE_PERCENT
      MIN_CLUSTER_SIZE_USD [⟨999/10, 200000, Side.long, "w", "BTC", 10⟩] 100
      "BTC").nearest_long_cluster =
      some { coin := "BTC", side := Side.long, price_low := 999/10, price_high := 100,
             price_center := 1999/20, total_size_usd := 200000, position_count := 1,
             avg_leverage := 10 } := by
    norm_num [aggregate_levels, aggregate_to_clusters, groupBuckets, addToGroups,
      price_to_bucket, pyInt, bucketToCluster, bucket_to_price_range, totalSize,
      merge_adjacent_clusters, stableSort, insertLe, mergeLoop, totalClusterSize,
      PRICE_BUCKET_PERCENT, CLUSTER_MERGE_PERCENT, MIN_CLUSTER_SIZE_USD,
      List.foldl, List.filter, List.filterMap, List.find?]
  have h := (c5_nearest_clusters [⟨999/10, 200000, Side.long, "w", "BTC", 10⟩] 100 "BTC"
    _ rfl).2.2.2.2.1 _ hfind
  exact ⟨h.1, h.2.1⟩

theorem isPrefixOf_append_self {α : Type*} [BEq α] [LawfulBEq α] :
    ∀ l m : List α, l.isPrefixOf (l ++ m) = true
  | [], _ => by simp [List.isPrefixOf]
  | a :: l, m => by
    simp only [List.cons_append, List.isPrefixOf, beq_self_eq_true, Bool.true_and,
      List.append_eq]
    exact isPrefixOf_append_self l m

theorem drop_length_append {α : Type*} :
    ∀ l m : List α, (l ++ m).drop l.length = m
  | [], _ => rfl
  | _ :: l, m => drop_length_append l m

/-- C6: compression round-trip.  Provided the library codecs satisfy their
round-trip laws, `decompress_json (compress_json x) = x` for every document,
`compress_json` always emits the literal `ZLIB:` tag followed by the base64 of
the deflate of the JSON encoding, and an untagged valid JSON string decodes to
the document it encodes. -/
theorem c6_compression_round_trip {α β : Type} (c : Codecs α β)
    (hjson : ∀ d, c.jsonLoads (c.jsonDumps d) = some d)
    (hutf8 : ∀ s, c.decodeUtf8 (c.encodeUtf8 s) = some s)
    (hzlib : ∀ b, c.zlibDecompress (c.zlibCompress b) = some b)
    (hb64 : ∀ b, c.b64decode (c.b64encode b) = some b) :
    (∀ d, decompress_json c (some (compress_json c d)) = d) ∧
    (∀ d, compress_json c d =
      COMPRESSION_MARKER ++ c.b64encode (c.zlibCompress (c.encodeUtf8 (c.jsonDumps d)))) ∧
    (∀ s v, COMPRESSION_MARKER.isPrefixOf s = false → c.jsonLoads s = some v →
      decompress_json c (some s) = v) := by
  refine ⟨?_, fun d => rfl, ?_⟩
  · intro d
    simp only [decompress_json, compress_json]
    rw [if_pos (isPrefixOf_append_self _ _), drop_length_append]
    simp only [hb64, hzlib, hutf8, hjson]
  · intro s v hpre hload
    simp only [decompress_json]
    rw [if_neg (by simp [hpre]), hload]

/-- Witness for `c6_compression_round_trip` at the concrete codec
`unaryCodecs` and document `3`. -/
theorem c6_compression_round_trip_witness :
    (∀ d, unaryCodecs.jsonLoads (unaryCodecs.jsonDumps d) = some d) ∧
    (∀ s, unaryCodecs.decodeUtf8 (unaryCodecs.encodeUtf8 s) = some s) ∧
    (∀ b, unaryCodecs.zlibDecompress (unaryCodecs.zlibCompress b) = some b) ∧
    (∀ b, unaryCodecs.b64decode (unaryCodecs.b64encode b) = some b) ∧
    decompress_json unaryCodecs (some (compress_json unaryCodecs 3)) = 3 := by
  refine ⟨fun d => by simp [unaryCodecs], fun s => rfl, fun b => rfl, fun b => rfl, ?_⟩
  exact (c6_compression_round_trip unaryCodecs
    (fun d => by simp [unaryCodecs]) (fun s => rfl) (fun b => rfl) (fun b => rfl)).1 3

/-- C10: `decompress_json` is total and silently yields the empty dict on
every failure: `None` input, a `ZLIB:`-tagged payload whose base64, zlib,
utf-8 or JSON stage fails, and an untagged string that is not valid JSON. -/
theorem c10_decompress_total {α β : Type} (c : Codecs α β) :
    (decompress_json c none = c.emptyDict) ∧
    (∀ s, COMPRESSION_MARKER.isPrefixOf s = true →
      c.b64decode (s.drop COMPRESSION_MARKER.length) = none →
      decompress_json c (some s) = c.emptyDict) ∧
    (∀ s b, COMPRESSION_MARKER.isPrefixOf s = true →
      c.b64decode (s.drop COMPRESSION_MARKER.length) = some b →
      c.zlibDecompress b = none →
      decompress_json c (some s) = c.emptyDict) ∧
    (∀ s b jb, COMPRESSION_MARKER.isPrefixOf s = true →
      c.b64decode (s.drop COMPRESSION_MARKER.length) = some b →
      c.zlibDecompress b = some jb → c.decodeUtf8 jb = none →
      decompress_json c (some s) = c.emptyDict) ∧
    (∀ s b jb js, COMPRESSION_MARKER.isPrefixOf s = true →
      c.b64decode (s.drop COMPRESSION_MARKER.length) = some b →
      c.zlibDecompress b = some jb → c.decodeUtf8 jb = some js →
      c.jsonLoads js = none →
      decompress_json c (some s) = c.emptyDict) ∧
    (∀ s, COMPRESSION_MARKER.isPrefixOf s = false → c.jsonLoads s = none →
      decompress_json c (some s) = c.emptyDict) := by
  refine ⟨rfl, ?_, ?_, ?_, ?_, ?_⟩
  · intro s hpre hb
    simp only [decompress_json]
    rw [if_pos hpre, hb]
  · intro s b hpre hb hz
    simp only [decompress_json]
    rw [if_pos hpre]
    simp only [hb, hz]
  · intro s b jb hpre hb hz hu
    simp only [decompress_json]
    rw [if_pos hpre]
    simp only [hb, hz, hu]
  · intro s b jb js hpre hb hz hu hj
    simp only [decompress_json]
    rw [if_pos hpre]
    simp only [hb, hz, hu, hj]
  · intro s hpre hj
    simp only [decompress_json]
    rw [if_neg (by simp [hpre]), hj]

/-- Witness for `c10_decompress_total`: the `None` input, a tagged payload
whose base64 stage fails, and an untagged non-JSON string all decode to the
empty dict of `failingCodecs`. -/
theorem c10_decompress_total_witness :
    decompress_json failingCodecs none = failingCodecs.emptyDict ∧
    decompress_json failingCodecs (some (COMPRESSION_MARKER ++ ['x'])) =
      failingCodecs.emptyDict ∧
    decompress_json failingCodecs (some ['x']) = failingCodecs.emptyDict :=
  ⟨(c10_decompress_total failingCodecs).1,
   (c10_decompress_total failingCodecs).2.1 _ (by decide) rfl,
   (c10_decompress_total failingCodecs).2.2.2.2.2 _ (by decide) rfl⟩

theorem foldl_scanAccum_errors (rs : List (List Position)) :
    ∀ acc : List Position × List LiquidationLevel × ℕ,
      ((rs.map Sum.inr).foldl scanAccum acc).2.2 = acc.2.2 := by
  induction rs with
  | nil => intro acc; rfl
  | cons r rs ih =>
    intro acc
    simp only [List.map_cons, List.foldl_cons]
    rw [ih]
    rfl

/-- C7, evaluated at the failing input: a wallet query that raises is
swallowed twice (inside `get_user_positions` and again in `scan_wallet`), so
`asyncio.gather` never sees an `Exception`, the `isinstance(result,
Exception)` branch is dead, and `ScanResult.errors` is identically `0` — the
failing query contributes nothing *and is not counted*, contradicting the
claim that it increments `errors` by one. -/
theorem c7_failed_queries_not_counted :
    (∀ fetch wallets, (scan_wallets fetch wallets).errors = 0) ∧
    failFetch "w" = .error () ∧
    (scan_wallets failFetch ["w"]).errors = 0 ∧
    (scan_wallets failFetch ["w"]).liquidation_levels = [] ∧
    (0 : ℕ) ≠ 1 := by
  refine ⟨?_, rfl, ?_, ?_, by norm_num⟩
  · intro fetch wallets
    show ((wallets.map (scan_wallet fetch)).foldl scanAccum ([], [], 0)).2.2 = 0
    have hmap : wallets.map (scan_wallet fetch) =
        (wallets.map (get_user_positions fetch)).map Sum.inr := by
      rw [List.map_map]
      rfl
    rw [hmap, foldl_scanAccum_errors]
  · show ((["w"].map (scan_wallet failFetch)).foldl scanAccum ([], [], 0)).2.2 = 0
    rfl
  · show ((["w"].map (scan_wallet failFetch)).foldl scanAccum ([], [], 0)).2.1 = []
    rfl

/-- C8, counterexample: the venue string `"0"` is truthy and not `"null"`, so
`float("0") = 0.0` becomes the level's `liq_price` — the scanner emits a
`LiquidationLevel` with `liq_price = 0`, refuting `liq_price > 0`. -/
theorem c8_liq_price_counterexample :
    (scan_wallets zeroLiqFetch ["w"]).liquidation_levels =
      [{ price := 0, size_usd := 2000, side := Side.long, wallet := "w",
         coin := "BTC", leverage := 5 }] ∧
    ¬ (0 : ℚ) > 0 := by
  constructor
  · have hp : pyFloatParts ['0'] = some (false, 0, 0, 0) := by decide
    norm_num [scan_wallets, scan_wallet, get_user_positions, parsePositions,
      parseAssetPosition, parseLiqPx, liqPxTruthy, liqPxIsNullString, pyFloat, hp,
      nullStr, levelOfPosition, scanAccum,
      zeroLiqFetch, zeroLiqRaw, Position.side, MIN_POSITION_VALUE_USD,
      List.foldl, List.filter, List.filterMap]
  · norm_num

theorem foldl_scanAccum_size_bound (MIN : ℚ) :
    ∀ (rs : List (Sum Unit (List Position)))
      (acc : List Position × List LiquidationLevel × ℕ),
      (∀ lvl ∈ acc.2.1, MIN_POSITION_VALUE_USD ≤ lvl.size_usd) →
      ∀ lvl ∈ (rs.foldl scanAccum acc).2.1, MIN_POSITION_VALUE_USD ≤ lvl.size_usd
  | [], acc, hacc => hacc
  | r :: rs, acc, hacc => by
    simp only [List.foldl_cons]
    refine foldl_scanAccum_size_bound MIN rs _ ?_
    cases r with
    | inl e => exact hacc
    | inr result =>
      intro lvl hlvl
      simp only [scanAccum] at hlvl
      rcases List.mem_append.mp hlvl with hold | hnew
      · exact hacc lvl hold
      · obtain ⟨pos, hpos, hlev⟩ := List.mem_filterMap.mp hnew
        have hkept := List.mem_filter.mp hpos
        have hmin : MIN_POSITION_VALUE_USD ≤ pos.notional_value := by
          have := hkept.2
          simp only [decide_eq_true_eq] at this
          exact not_lt.mp this
        cases hliq : pos.liquidation_price with
        | none => simp [levelOfPosition, hliq] at hlev
        | some lp =>
          simp only [levelOfPosition, hliq] at hlev
          obtain rfl := Option.some_injective _ hlev.symm
          exact hmin

theorem scan_single_levels (fetch : String → Except Unit (List (Option RawPosition)))
    (w : String) :
    (scan_wallets fetch [w]).liquidation_levels =
      ((get_user_positions fetch w).filter
        (fun pos => ¬ pos.notional_value < MIN_POSITION_VALUE_USD)).filterMap
        levelOfPosition := rfl

/-- C8 (amended): every emitted level has `size_usd ≥ MIN_POSITION_VALUE_USD`
(hence `> 0`); the three null encodings — absent key, JSON `null`, the string
`"null"` — yield no level; and for a non-dust position whose `liquidationPx`
is a truthy non-`"null"` string that `float()` parses to `q`, a level with
`liq_price = q` (not necessarily positive) is emitted exactly when the
notional reaches `MIN_POSITION_VALUE_USD`. -/
theorem c8_level_emission (w : String) (p : RawPosition) :
    (∀ fetch wallets,
      ∀ lvl ∈ (scan_wallets fetch wallets).liquidation_levels,
        MIN_POSITION_VALUE_USD ≤ lvl.size_usd) ∧
    (p.liquidationPx = .absent ∨ p.liquidationPx = .null ∨ p.liquidationPx = .str nullStr →
      (scan_wallets (fun _ => .ok [some p]) [w]).liquidation_levels = []) ∧
    (∀ s q, p.liquidationPx = .str s → s ≠ [] → s ≠ nullStr → pyFloat s = some q →
      1/10000 ≤ |p.szi| → MIN_POSITION_VALUE_USD ≤ |p.positionValue| →
      (scan_wallets (fun _ => .ok [some p]) [w]).liquidation_levels =
        [{ price := q, size_usd := |p.positionValue|,
           side := if 0 < p.szi then Side.long else Side.short,
           wallet := w, coin := p.coin, leverage := p.leverageValue }]) ∧
    (∀ s q, p.liquidationPx = .str s → s ≠ [] → s ≠ nullStr → pyFloat s = some q →
      1/10000 ≤ |p.szi| → |p.positionValue| < MIN_POSITION_VALUE_USD →
      (scan_wallets (fun _ => .ok [some p]) [w]).liquidation_levels = []) := by
  refine ⟨?_, ?_, ?_, ?_⟩
  · intro fetch wallets lvl hlvl
    exact foldl_scanAccum_size_bound MIN_POSITION_VALUE_USD
      (wallets.map (scan_wallet fetch)) ([], [], 0) (by simp) lvl hlvl
  · intro hpx
    rw [scan_single_levels]
    have hliq : parseLiqPx p.liquidationPx = .ok none := by
      rcases hpx with h | h | h <;> rw [h]
      · rfl
      · rfl
      · simp [parseLiqPx, liqPxIsNullString]
    simp only [get_user_positions, parsePositions, parseAssetPosition]
    by_cases hdust : |p.szi| < 1/10000
    · rw [if_pos hdust]
      rfl
    · rw [if_neg hdust, hliq]
      simp [levelOfPosition, List.filter]
      split <;> simp
  · intro s q hs hne hnn hq hdust hmin
    rw [scan_single_levels]
    have hliq : parseLiqPx p.liquidationPx = .ok (some q) := by
      rw [hs]
      rw [parseLiqPx, if_pos ?hc]
      · rw [hq]
      case hc =>
        constructor
        · simp [liqPxTruthy, hne]
        · simp [liqPxIsNullString, hnn]
    simp only [get_user_positions, parsePositions, parseAssetPosition,
      if_neg (not_lt.mpr hdust), hliq]
    simp [List.filter, not_lt.mpr hmin, levelOfPosition, Position.side]
  · intro s q hs hne hnn hq hdust hmin
    rw [scan_single_levels]
    have hliq : parseLiqPx p.liquidationPx = .ok (some q) := by
      rw [hs]
      rw [parseLiqPx, if_pos ?hc]
      · rw [hq]
      case hc =>
        constructor
        · simp [liqPxTruthy, hne]
        · simp [liqPxIsNullString, hnn]
    simp only [get_user_positions, parsePositions, parseAssetPosition,
      if_neg (not_lt.mpr hdust), hliq]
    simp [List.filter, hmin]

/-- Witness for `c8_level_emission`: the emission case applied at `goodRaw`. -/
theorem c8_level_emission_witness :
    (scan_wallets (fun _ => .ok [some goodRaw]) ["w"]).liquidation_levels =
      [{ price := 25, size_usd := |goodRaw.positionValue|,
         side := if 0 < goodRaw.szi then Side.long else Side.short,
         wallet := "w", coin := goodRaw.coin, leverage := goodRaw.leverageValue }] := by
  have hp : pyFloatParts ['2', '5'] = some (false, 25, 0, 0) := by decide
  have hq : pyFloat ['2', '5'] = some 25 := by
    norm_num [pyFloat, hp]
  exact (c8_level_emission "w" goodRaw).2.2.1 ['2', '5'] 25 rfl (by decide) (by decide) hq
    (by norm_num [goodRaw]) (by norm_num [goodRaw, MIN_POSITION_VALUE_USD])

/-- C2, evaluated at the failing input: a collector-written row
(`T` separator) stamped at noon on the 30-day boundary day, aged 30 days and
3 hours at a 15:00 maintenance run, survives all three DELETEs — the `T`
compares above the space of the cutoff string, so the row escapes the
30-day purge and is then kept by the noon rule; the identical row with a
space separator is correctly deleted.  After the run a row older than 30
days remains, violating the retention invariant. -/
theorem c2_retention_boundary_bug :
    run_maintenance_snapshots (20000 * 86400 + 54000)
        [{ secs := 19970 * 86400 + 43200, sepT := true, hasSuffix := false }] =
      [{ secs := 19970 * 86400 + 43200, sepT := true, hasSuffix := false }] ∧
    30 * 86400 < (20000 * 86400 + 54000) - (19970 * 86400 + 43200) ∧
    run_maintenance_snapshots (20000 * 86400 + 54000)
        [{ secs := 19970 * 86400 + 43200, sepT := false, hasSuffix := false }] = [] := by
  refine ⟨?_, by norm_num, ?_⟩ <;> decide

end HL
